import Mathlib

/-!
Shallow embedding of `src/roundtrip.rs` from crlf0710/pulldown-cmark:
the Markdown re-serializer (`MarkdownWriter`) that turns a stream of
parse events back into Markdown text.

Strings are modelled as Lean `String` (a list of characters); the byte
operations of the source (`ends_with('\n')`, slicing off a one-byte
suffix, slicing an ASCII literal) act on single ASCII characters, so a
character-level model is exact.  Machine integers (`u64` list indices,
`usize` bit sets) are modelled as `Nat`; no claim exercises overflow.
Panics (`unreachable!`, `checked_sub(..).unwrap()`, out-of-bounds
slices) are modelled by `Option`/dedicated result constructors.
-/

namespace Roundtrip

/-- Column alignment carried by `Tag::Table` (payload unused by the writer). -/
inductive Alignment where
  | noneAlign
  | left
  | center
  | right
deriving DecidableEq, Repr

/-- Mirror of `pulldown_cmark::CodeBlockKind`. -/
inductive CodeBlockKind where
  | indented
  | fenced (info : String)
deriving DecidableEq, Repr

/-- Mirror of `pulldown_cmark::LinkType`; the writer only distinguishes
`Autolink`/`Email` from everything else. -/
inductive LinkType where
  | inlineLink
  | reference
  | referenceUnknown
  | collapsed
  | collapsedUnknown
  | shortcut
  | shortcutUnknown
  | autolink
  | email
deriving DecidableEq, Repr

/-- Mirror of `pulldown_cmark::Tag`. -/
inductive Tag where
  | paragraph
  | heading (level : Nat)
  | blockQuote
  | codeBlock (kind : CodeBlockKind)
  | list (start : Option Nat)
  | item
  | footnoteDefinition (label : String)
  | table (aligns : List Alignment)
  | tableHead
  | tableRow
  | tableCell
  | emphasis
  | strong
  | strikethrough
  | link (kind : LinkType) (dest : String) (title : String)
  | image (kind : LinkType) (dest : String) (title : String)
deriving DecidableEq, Repr

/-- Mirror of `pulldown_cmark::Event` (`End` is a Lean keyword, hence `end'`). -/
inductive Event where
  | start (tag : Tag)
  | end' (tag : Tag)
  | text (s : String)
  | code (s : String)
  | html (s : String)
  | footnoteReference (s : String)
  | softBreak
  | hardBreak
  | rule
  | taskListMarker (checked : Bool)
deriving DecidableEq, Repr

/-- `is_block_tag` from roundtrip.rs. -/
def is_block_tag : Tag → Bool
  | .paragraph | .heading _ | .blockQuote | .codeBlock _ | .list _ | .item
  | .footnoteDefinition _ | .table _ | .tableHead | .tableRow | .tableCell => true
  | _ => false

/-- `is_container_block_tag` from roundtrip.rs. -/
def is_container_block_tag : Tag → Bool
  | .blockQuote | .list _ | .item | .table _ | .tableHead | .tableRow | .tableCell => true
  | _ => false

/-- `is_block_nesting_start` from roundtrip.rs. -/
def is_block_nesting_start : Event → Bool
  | .start tag => is_block_tag tag
  | _ => false

/-- `is_block_nesting_end` from roundtrip.rs. -/
def is_block_nesting_end : Event → Bool
  | .end' tag => is_block_tag tag
  | _ => false

/-- `is_leaf_block_start` from roundtrip.rs. -/
def is_leaf_block_start : Event → Bool
  | .start tag => is_block_tag tag && !is_container_block_tag tag
  | _ => false

/-- The three-valued classification result `tri_bool` from roundtrip.rs. -/
inductive tri_bool where
  | t
  | f
  | maybe
deriving DecidableEq, Repr

/-- `is_childless_block` from roundtrip.rs. -/
def is_childless_block : Event → tri_bool
  | .rule => .t
  | .html _ => .maybe
  | .text _ => .maybe
  | _ => .f

/-- `is_childless_block_2` from roundtrip.rs: resolves the `maybe` cases
using the effective context. -/
def is_childless_block_2 (context : List Event) (event : Event) : Bool :=
  match event with
  | .rule => true
  | .html _ =>
      !(match context.getLast? with
        | some e => is_leaf_block_start e
        | none => false)
  | .text _ =>
      match context.getLast? with
      | some (.start .item) => true
      | _ => false
  | _ => false

/-- Rust `char::is_ascii_punctuation`: the four ASCII punctuation ranges. -/
def isAsciiPunctuation (c : Char) : Bool :=
  (0x21 ≤ c.toNat && c.toNat ≤ 0x2F) ||
  (0x3A ≤ c.toNat && c.toNat ≤ 0x40) ||
  (0x5B ≤ c.toNat && c.toNat ≤ 0x60) ||
  (0x7B ≤ c.toNat && c.toNat ≤ 0x7E)

/-- `EscapeOptions`: a `usize` bit set. -/
structure EscapeOptions where
  bits : Nat
deriving DecidableEq, Repr

/-- `EscapeOptions::default()` (all flags clear). -/
def EscapeOptions.defaultOpts : EscapeOptions := ⟨0⟩

/-- `EscapeOptions::ESCAPE_LINEFEED`. -/
def EscapeOptions.ESCAPE_LINEFEED : EscapeOptions := ⟨1⟩

/-- `EscapeOptions::has`: `self.0 & rhs.0 == rhs.0`. -/
def EscapeOptions.has (self rhs : EscapeOptions) : Bool :=
  self.bits &&& rhs.bits == rhs.bits

/-- The loop body of `escape_text`: walks the characters carrying the prefix
already scanned (the slice `input[..offset]`) and the lazily created rewrite
buffer (`rewrite_str : Option<String>`). -/
def escapeLoop (options : EscapeOptions) :
    List Char → List Char → Option (List Char) → Option (List Char)
  | [], _, rewrite => rewrite
  | ch :: rest, scanned, rewrite =>
      if isAsciiPunctuation ch then
        escapeLoop options rest (scanned ++ [ch])
          (some ((rewrite.getD scanned) ++ ['\\', ch]))
      else if ch == '\n' && options.has EscapeOptions.ESCAPE_LINEFEED then
        escapeLoop options rest (scanned ++ [ch])
          (some ((rewrite.getD scanned) ++ "&#10;".toList))
      else
        escapeLoop options rest (scanned ++ [ch])
          (match rewrite with
           | some buf => some (buf ++ [ch])
           | none => none)

/-- `escape_text` from roundtrip.rs: returns the rewrite buffer when a
rewrite happened, the input unchanged otherwise. -/
def escape_text (input : String) (options : EscapeOptions) : String :=
  match escapeLoop options input.toList [] none with
  | some l => ⟨l⟩
  | none => input

/-- Character-level model of Rust `str::ends_with('\n')` (a one-byte,
one-character suffix). -/
def strEndsWithLf (s : String) : Bool :=
  s.toList.getLast? == some '\n'

/-- Character-level model of slicing off a trailing one-byte character:
`&s[..s.len() - 1]` when the last character is ASCII. -/
def strDropLastChar (s : String) : String :=
  ⟨s.toList.dropLast⟩

/-- Byte slicing `&s[..n]` of an ASCII literal: in bounds exactly when
`n` does not exceed the length, panicking (`none`) otherwise. -/
def sliceTo (s : String) (n : Nat) : Option String :=
  if n ≤ s.toList.length then some ⟨s.toList.take n⟩ else none

/-- `renew_nonnesting_sequence_line_start` from roundtrip.rs, on the chained
iterator `context.iter().chain(context2.iter())` (pass the two slices
appended).  Emits the container prefix for a fresh line; `Start(Item)` not
consumed by a preceding `List` peek hits `unreachable!()`, modelled `none`. -/
def renewLineStart : List Event → Option String
  | [] => some ""
  | .start (.list none) :: .start .item :: rest =>
      (renewLineStart rest).map (fun p => "  " ++ p)
  | .start (.list (some idx)) :: .start .item :: rest =>
      (renewLineStart rest).map
        (fun p => (⟨(toString (idx - 1) ++ ". ").toList.map (fun _ => ' ')⟩ : String) ++ p)
  | .start (.list _) :: rest => renewLineStart rest
  | .start .paragraph :: rest => renewLineStart rest
  | .start (.heading _) :: rest => renewLineStart rest
  | .start (.codeBlock .indented) :: rest =>
      (renewLineStart rest).map (fun p => "    " ++ p)
  | .start (.codeBlock (.fenced _)) :: rest => renewLineStart rest
  | .start .blockQuote :: rest =>
      (renewLineStart rest).map (fun p => "> " ++ p)
  | .start .item :: _ => none
  | .start _ :: rest => renewLineStart rest
  | .text _ :: rest => renewLineStart rest
  | _ :: rest => renewLineStart rest

/-- The strategy enum inside `process_transition`. -/
inductive TransitionStrategy where
  | doNothing
  | newlineAndRenew
  | extraNewlineAndRenew
deriving DecidableEq, Repr

/-- Strategy selection of `process_transition`: the sequence of
`if strategy.is_none()` blocks of the source, as sequential updates of an
`Option TransitionStrategy`. -/
def transition_strategy (context removing_sequence added_sequence : List Event) :
    TransitionStrategy :=
  let s0 : Option TransitionStrategy := none
  let s1 :=
    if s0.isNone && added_sequence.isEmpty && context.isEmpty then
      some .doNothing
    else s0
  let s2 :=
    if s1.isNone then
      match removing_sequence, added_sequence with
      | [.start .paragraph], [.start .paragraph] => some .extraNewlineAndRenew
      | [.start (.heading _)], [.start (.heading _)] => some .newlineAndRenew
      | [.start .blockQuote, .start .paragraph],
        [.start .blockQuote, .start .paragraph] => some .extraNewlineAndRenew
      | [.html _], [.html _] => some .doNothing
      | [.text _], [.text _] => some .doNothing
      | _, _ => s1
    else s1
  let s3 :=
    if s2.isNone then
      match removing_sequence with
      | .start (.list _) :: _ => some .extraNewlineAndRenew
      | _ => s2
    else s2
  s3.getD .newlineAndRenew

/-- `process_transition` from roundtrip.rs: pick the strategy, then emit
(`NewlineAndRenew` writes a newline and the line-start prefix once,
`ExtraNewlineAndRenew` twice). -/
def process_transition (context removing_sequence added_sequence : List Event) :
    Option String :=
  match transition_strategy context removing_sequence added_sequence with
  | .doNothing => some ""
  | .newlineAndRenew => do
      let p ← renewLineStart context
      some ("\n" ++ p)
  | .extraNewlineAndRenew => do
      let p ← renewLineStart context
      let p2 ← renewLineStart context
      some ("\n" ++ p ++ "\n" ++ p2)

/-- One step of `process_enter_nesting`: the emission for `event` against
the running `context` (before the event is pushed), together with the
context as mutated by the step (`Item` bumps the counter stored in the
innermost `List(Some(_))` entry). -/
def enter_one (context : List Event) : Event → Option (String × List Event)
  | .rule =>
      some
        ((match context.getLast? with
          | some (.start .item) => "---"
          | _ => "***"), context)
  | .html s =>
      if strEndsWithLf s then do
        let p ← renewLineStart context
        some (s ++ p, context)
      else
        some (s, context)
  | .text s =>
      (match context.getLast? with
       | some (.start (.codeBlock _)) => some (s, context)
       | _ => some (escape_text s EscapeOptions.defaultOpts, context))
  | .start .paragraph => some ("", context)
  | .start (.list _) => some ("", context)
  | .start (.heading level) => do
      let level_str ← sliceTo "#######" level
      some (level_str ++ " ", context)
  | .start .blockQuote => some ("> ", context)
  | .start (.codeBlock .indented) => some ("    ", context)
  | .start (.codeBlock (.fenced info)) => do
      let p ← renewLineStart context
      some ("````" ++ info ++ "\n" ++ p, context)
  | .start .item =>
      (match context.getLast? with
       | some (.start (.list (some idx))) =>
           some (toString idx ++ ". ",
                 context.dropLast ++ [.start (.list (some (idx + 1)))])
       | some (.start (.list none)) => some ("* ", context)
       | _ => some ("", context))
  | .start _ => some ("", context)
  | _ => some ("", context)

/-- `process_enter_nesting` from roundtrip.rs: handle each buffered event in
order, pushing it onto the running context afterwards; returns the emitted
text and the final context. -/
def process_enter_nesting (context : List Event) :
    List Event → Option (String × List Event)
  | [] => some ("", context)
  | e :: rest => do
      let (out1, ctx1) ← enter_one context e
      let (out2, ctx2) ← process_enter_nesting (ctx1 ++ [e]) rest
      some (out1 ++ out2, ctx2)

/-- One step of `process_exit_nesting` for the event at one position, with
`remaining` the part of the closing sequence below it. -/
def exit_one (context remaining : List Event) : Event → Option String
  | .rule => some ""
  | .html _ => some ""
  | .text _ => some ""
  | .start tag =>
      (match tag with
       | .paragraph | .heading _ | .blockQuote | .item | .list _ => some ""
       | .codeBlock .indented => some ""
       | .codeBlock (.fenced _) => do
           let p ← renewLineStart (context ++ remaining)
           some ("\n" ++ p ++ "````")
       | _ => some "")
  | _ => some ""

/-- Helper for `process_exit_nesting`: processes the reversed closing
sequence front to back (i.e. the original back to front), where the events
still below the current one form `restRev.reverse`. -/
def exitRev (context : List Event) : List Event → Option String
  | [] => some ""
  | e :: restRev => do
      let out1 ← exit_one context restRev.reverse e
      let out2 ← exitRev context restRev
      some (out1 ++ out2)

/-- `process_exit_nesting` from roundtrip.rs: iterate the closing sequence
in reverse index order. -/
def process_exit_nesting (context sequence : List Event) : Option String :=
  exitRev context sequence.reverse

/-- One step of `process_nonnesting_sequence` (the inline-run emitter). -/
def nonnesting_one (context : List Event) : Event → Option String
  | .text s => do
      let base :=
        match context.getLast? with
        | some (.start (.codeBlock _)) => s
        | some (.start (.heading _)) => escape_text s EscapeOptions.ESCAPE_LINEFEED
        | _ => escape_text s EscapeOptions.defaultOpts
      if strEndsWithLf s then do
        let p ← renewLineStart context
        some (base ++ p)
      else
        some base
  | .softBreak =>
      (match context.getLast? with
       | some (.start (.heading _)) =>
           some (escape_text "\n" EscapeOptions.ESCAPE_LINEFEED)
       | _ => do
           let p ← renewLineStart context
           some ("\n" ++ p))
  | .hardBreak => do
      let p ← renewLineStart context
      some ("\\\n" ++ p)
  | .code s => some ("`" ++ s ++ "`")
  | .start .emphasis => some "*"
  | .end' .emphasis => some "*"
  | .start .strong => some "**"
  | .end' .strong => some "**"
  | .html s => some s
  | .start (.link kind _ _) =>
      (match kind with
       | .autolink | .email => some "<"
       | _ => some "[")
  | .end' (.link kind target title) =>
      (match kind with
       | .autolink | .email => some ">"
       | _ =>
           some ("](" ++ target ++
                 (if title.isEmpty then "" else " \"" ++ title ++ "\"") ++ ")"))
  | .start (.image _ _ _) => some "!["
  | .end' (.image _ target title) =>
      some ("](" ++ target ++
            (if title.isEmpty then "" else " \"" ++ title ++ "\"") ++ ")")
  | _ => some ""

/-- `process_nonnesting_sequence` from roundtrip.rs: emit each event of the
inline run in order against the fixed context. -/
def process_nonnesting_sequence (context : List Event) :
    List Event → Option String
  | [] => some ""
  | e :: rest => do
      let out1 ← nonnesting_one context e
      let out2 ← process_nonnesting_sequence context rest
      some (out1 ++ out2)

/-- The mutable locals of `MarkdownWriter::run` at the top of the outer
loop: the container stack, the incoming buffer, the outgoing counter, the
persisted phase `state`, the unread events, and the text written so far. -/
structure LoopState where
  stack : List Event
  incoming : List Event
  outgoing_counter : Nat
  state : Nat
  input : List Event
  output : String
deriving DecidableEq, Repr

/-- The classifier at the top of the inner peek-loop of `run`: the phase
class of the peeked event.  `none` models the panic of
`stack.len().checked_sub(outgoing_counter).unwrap()` when building the
effective context for the `maybe` cases. -/
def classify2 (stack incoming : List Event) (outgoing_counter state : Nat)
    (event : Event) : Option Nat :=
  if is_block_nesting_start event then some 1
  else if is_block_nesting_end event then some 4
  else
    match is_childless_block event with
    | .t => some 3
    | .f => some 2
    | .maybe => do
        let context ←
          if state = 4 then
            if outgoing_counter ≤ stack.length then
              some (stack.take (stack.length - outgoing_counter))
            else none
          else some stack
        let context := if state = 1 then context ++ incoming else context
        some (if is_childless_block_2 context event then 3 else 2)

/-- The inner accumulation loop (`'seq`) of `run`: batches same-class
events (phase 4 counts them, other phases buffer them), takes the
phase-4-to-phase-1 short-circuit, and stops returning the loop state and
`new_state` (0 when the input is exhausted).  `none` models a panic:
the classifier's `unwrap`, or the `unreachable!()` for persisted phase 3. -/
def accumGo (stack incoming : List Event) (outgoing_counter state : Nat)
    (output : String) : List Event → Option (LoopState × Nat)
  | [] => some (⟨stack, incoming, outgoing_counter, state, [], output⟩, 0)
  | e :: rest =>
      match classify2 stack incoming outgoing_counter state e with
      | none => none
      | some c =>
          if c = state then
            if state = 4 then
              accumGo stack incoming (outgoing_counter + 1) state output rest
            else if state = 3 then none
            else
              accumGo stack (incoming ++ [e]) outgoing_counter state output rest
          else if state = 4 ∧ c = 1 then
            accumGo stack (incoming ++ [e]) outgoing_counter 1 output rest
          else
            some (⟨stack, incoming, outgoing_counter, state, e :: rest, output⟩, c)

/-- The accumulation half of one iteration of `run`'s outer loop. -/
def accumLoop (st : LoopState) : Option (LoopState × Nat) :=
  accumGo st.stack st.incoming st.outgoing_counter st.state st.output st.input

/-- The parser-quirk rewrite in the phase-2 commit of `run`: when the next
phase is 4, the innermost stack entry opens a fenced code block and the
last buffered event is a `Text` ending in a newline, drop that newline
from the buffered copy. -/
def fenced_newline_fix (new_state : Nat) (stack incoming : List Event) :
    List Event :=
  match new_state, stack.getLast? with
  | 4, some (.start (.codeBlock (.fenced _))) =>
      (match incoming.getLast? with
       | some (.text s) =>
           if strEndsWithLf s then
             incoming.dropLast ++ [.text (strDropLastChar s)]
           else incoming
       | _ => incoming)
  | _, _ => incoming

/-- Result of the commit half of an iteration: continue with updated stack
and output, finish the run, or panic. -/
inductive CommitResult where
  | go (stack : List Event) (output : String)
  | finish (output : String)
  | panic
deriving DecidableEq, Repr

/-- The commit half of `run`'s outer loop (the flush for the phase being
left).  Phase 0 panics (`unreachable!`) when the first classified phase is
2 or 4; phases 1 and 4 panic when `outgoing_counter` exceeds the stack
length (`checked_sub(..).unwrap()`); phase 3 never persists
(`unreachable!`). -/
def commit (st : LoopState) (new_state : Nat) : CommitResult :=
  if st.state = 0 then
    if new_state = 0 then .finish st.output
    else if new_state = 1 ∨ new_state = 3 then .go st.stack st.output
    else .panic
  else if st.state = 1 then
    if st.outgoing_counter ≤ st.stack.length then
      let remaining := st.stack.length - st.outgoing_counter
      let afterTransition :=
        if st.outgoing_counter ≠ 0 then
          match process_transition (st.stack.take remaining)
              (st.stack.drop remaining) st.incoming with
          | some t => some (st.stack.take remaining, st.output ++ t)
          | none => none
        else some (st.stack, st.output)
      match afterTransition with
      | none => .panic
      | some (stk, out) =>
          match process_enter_nesting stk st.incoming with
          | some (o, stk2) => .go stk2 (out ++ o)
          | none => .panic
    else .panic
  else if st.state = 2 then
    match process_nonnesting_sequence st.stack
        (fenced_newline_fix new_state st.stack st.incoming) with
    | some o => .go st.stack (st.output ++ o)
    | none => .panic
  else if st.state = 3 then .panic
  else if st.state = 4 then
    if st.outgoing_counter ≤ st.stack.length then
      let remaining := st.stack.length - st.outgoing_counter
      match process_exit_nesting (st.stack.take remaining)
          (st.stack.drop remaining) with
      | some o => .go st.stack (st.output ++ o)
      | none => .panic
    else .panic
  else .go st.stack st.output

/-- Result of one full iteration of `run`'s outer loop. -/
inductive StepResult where
  | next (st : LoopState)
  | finished (output : String)
  | panicked
deriving DecidableEq, Repr

/-- The seed half of an iteration: consume the first event of the entered
phase and set up the next iteration (phase 3 is written immediately and
persisted as phase 4 with `outgoing_counter = 1`).  `st` carries the
possibly short-circuited `state` and the `outgoing_counter` and `input`
left by the accumulation half; `stack`/`output` come from the commit. -/
def seed (st : LoopState) (stack : List Event) (output : String)
    (new_state : Nat) : StepResult :=
  if new_state = 1 ∨ new_state = 2 then
    match st.input with
    | e :: rest =>
        .next ⟨stack, [e], 0, new_state, rest, output⟩
    | [] => .panicked
  else if new_state = 3 then
    match st.input with
    | e :: rest =>
        let incoming := [e]
        let afterTransition :=
          if st.state = 4 then
            if st.outgoing_counter ≤ stack.length then
              let remaining := stack.length - st.outgoing_counter
              match process_transition (stack.take remaining)
                  (stack.drop remaining) incoming with
              | some t => some (stack.take remaining, output ++ t)
              | none => none
            else none
          else some (stack, output)
        (match afterTransition with
         | none => .panicked
         | some (stk, out) =>
             match process_enter_nesting stk incoming with
             | some (o, stk2) => .next ⟨stk2, [], 1, 4, rest, out ++ o⟩
             | none => .panicked)
    | [] => .panicked
  else if new_state = 4 then
    match st.input with
    | _ :: rest => .next ⟨stack, [], 1, 4, rest, output⟩
    | [] => .next ⟨stack, [], 1, 4, [], output⟩
  else .finished output

/-- One iteration of the outer loop of `MarkdownWriter::run`. -/
def loopStep (st : LoopState) : StepResult :=
  match accumLoop st with
  | none => .panicked
  | some (stm, new_state) =>
      match commit stm new_state with
      | .panic => .panicked
      | .finish o => .finished o
      | .go stk out => seed stm stk out new_state

/-- Outcome of a whole serialization run. -/
inductive RunResult where
  | done (output : String)
  | panicked
  | outOfFuel
deriving DecidableEq, Repr

/-- Iterate `loopStep` with fuel. -/
def runLoop : Nat → LoopState → RunResult
  | 0, _ => .outOfFuel
  | fuel + 1, st =>
      match loopStep st with
      | .next st' => runLoop fuel st'
      | .finished o => .done o
      | .panicked => .panicked

/-- The initial loop state of `MarkdownWriter::run`. -/
def initState (events : List Event) : LoopState :=
  ⟨[], [], 0, 0, events, ""⟩

/-- `MarkdownWriter::run` on a finite event stream with a `String` writer
(whose `write_str` is a total append; modelled from the spec: the
`StrWrite` impl for `String` lives outside src/ and, per the spec,
"buffer append cannot fail").  The fuel `length + 1` is shown sufficient
below. -/
def run (events : List Event) : RunResult :=
  runLoop (events.length + 1) (initState events)

/-- `push_markdown` from roundtrip.rs: run the writer into a `String`
buffer and `unwrap` the `io::Result` (always `Ok` for the `String`
writer). -/
def push_markdown (events : List Event) : RunResult :=
  run events

/-! ### Specification-side definitions

These restate behaviours in the words of the spec, to be compared with
the source-derived definitions above. -/

/-- Per-character escape map in the words of the spec: ASCII punctuation
gets a backslash prepended, a linefeed becomes `&#10;` when
`ESCAPE_LINEFEED` is set, everything else passes through. -/
def escapeChar (options : EscapeOptions) (c : Char) : List Char :=
  if isAsciiPunctuation c then ['\\', c]
  else if c == '\n' && options.has EscapeOptions.ESCAPE_LINEFEED then "&#10;".toList
  else [c]

/-- Escaping in the words of the spec: map `escapeChar` over the
characters and concatenate. -/
def escape_text_spec (input : String) (options : EscapeOptions) : String :=
  ⟨input.toList.flatMap (escapeChar options)⟩

/-- Transition strategy selection in the words of the claim: the first
matching rule of the numbered list wins. -/
def spec_transition_strategy (context removing adding : List Event) :
    TransitionStrategy :=
  if adding = [] ∧ context = [] then .doNothing
  else
    match removing, adding with
    | [.start .paragraph], [.start .paragraph] => .extraNewlineAndRenew
    | [.start (.heading _)], [.start (.heading _)] => .newlineAndRenew
    | [.start .blockQuote, .start .paragraph],
      [.start .blockQuote, .start .paragraph] => .extraNewlineAndRenew
    | [.html _], [.html _] => .doNothing
    | [.text _], [.text _] => .doNothing
    | rem, _ =>
        match rem with
        | .start (.list _) :: _ => .extraNewlineAndRenew
        | _ => .newlineAndRenew

/-! ### Lemmas -/

/-- Invariant of the `escape_text` loop: up to the default taken when no
rewrite has started, the loop computes the concatenated per-character
escapes. -/
theorem escapeLoop_getD (options : EscapeOptions) :
    ∀ (l scanned : List Char) (rewrite : Option (List Char)),
      (escapeLoop options l scanned rewrite).getD (scanned ++ l) =
        rewrite.getD scanned ++ l.flatMap (escapeChar options) := by
  intro l
  induction l with
  | nil =>
      intro scanned rewrite
      simp [escapeLoop]
  | cons c rest ih =>
      intro scanned rewrite
      rw [List.append_cons scanned c rest]
      by_cases hp : isAsciiPunctuation c
      · rw [show escapeLoop options (c :: rest) scanned rewrite =
              escapeLoop options rest (scanned ++ [c])
                (some ((rewrite.getD scanned) ++ ['\\', c])) by
            simp [escapeLoop, hp]]
        rw [ih]
        cases rewrite <;> simp [escapeChar, hp]
      · by_cases hl : (c == '\n' && options.has EscapeOptions.ESCAPE_LINEFEED) = true
        · rw [show escapeLoop options (c :: rest) scanned rewrite =
                escapeLoop options rest (scanned ++ [c])
                  (some ((rewrite.getD scanned) ++ "&#10;".toList)) by
              simp [escapeLoop, hp, hl]]
          rw [ih]
          cases rewrite <;> simp [escapeChar, hp, hl]
        · rw [show escapeLoop options (c :: rest) scanned rewrite =
                escapeLoop options rest (scanned ++ [c])
                  (match rewrite with
                   | some buf => some (buf ++ [c])
                   | none => none) by
              simp [escapeLoop, hp, hl]]
          rw [ih]
          cases rewrite <;> simp [escapeChar, hp, hl]

/-- Claim C7: for every input string and option set, `escape_text` equals
the concatenation, over the characters of the input, of: a backslash
followed by the character for ASCII punctuation; the five characters
`&#10;` for a linefeed when `ESCAPE_LINEFEED` is set; and the character
unchanged otherwise. -/
theorem escape_text_eq_spec (input : String) (options : EscapeOptions) :
    escape_text input options = escape_text_spec input options := by
  have h := escapeLoop_getD options input.toList [] none
  rw [List.nil_append] at h
  unfold escape_text escape_text_spec
  cases he : escapeLoop options input.toList [] none with
  | none =>
      rw [he] at h
      simp only [Option.getD_none, List.nil_append] at h
      simp only [he]
      conv_lhs => rw [show input = (⟨input.toList⟩ : String) from by cases input; rfl]
      exact congrArg String.mk h
  | some l =>
      rw [he] at h
      simp only [Option.getD_some, Option.getD_none, List.nil_append] at h
      simp only [he]
      rw [h]

/-- The two strategy selections agree: the source's sequence of
`if strategy.is_none()` blocks implements the claim's first-match rule
list. -/
theorem transition_strategy_eq_spec (context removing adding : List Event) :
    transition_strategy context removing adding =
      spec_transition_strategy context removing adding := by
  by_cases h1 : adding = [] ∧ context = []
  · obtain ⟨ha, hc⟩ := h1
    subst ha hc
    simp [transition_strategy, spec_transition_strategy]
  · have hb : (adding.isEmpty && context.isEmpty) = false := by
      rcases Decidable.not_and_iff_or_not.mp h1 with h | h
      · have : adding.isEmpty = false := by
          cases adding <;> simp_all
        simp [this]
      · have : context.isEmpty = false := by
          cases context <;> simp_all
        simp [this]
    simp only [transition_strategy, spec_transition_strategy, Option.isNone_none,
      Bool.true_and, hb, Bool.false_and, if_neg h1, Bool.and_false,
      Bool.false_eq_true, if_false, Option.isNone]
    generalize hM : (match removing, adding with
      | [Event.start Tag.paragraph], [Event.start Tag.paragraph] =>
          some TransitionStrategy.extraNewlineAndRenew
      | [Event.start (Tag.heading _)], [Event.start (Tag.heading _)] =>
          some TransitionStrategy.newlineAndRenew
      | [Event.start Tag.blockQuote, Event.start Tag.paragraph],
        [Event.start Tag.blockQuote, Event.start Tag.paragraph] =>
          some TransitionStrategy.extraNewlineAndRenew
      | [Event.html _], [Event.html _] => some TransitionStrategy.doNothing
      | [Event.text _], [Event.text _] => some TransitionStrategy.doNothing
      | _, _ => (none : Option TransitionStrategy)) = M
    cases M with
    | some val =>
        split at hM <;> simp_all
    | none =>
        split at hM <;> try simp_all
        all_goals try (split <;> try simp_all)

/-- Claim C5: the transition emitter picks the first matching rule of the
claim's list — (1) adding empty and context empty: DoNothing; (2) both
exactly `[Start(Paragraph)]`: ExtraNewlineAndRenew; (3) both exactly
`[Start(Heading _)]`: NewlineAndRenew; (4) both exactly
`[Start(BlockQuote), Start(Paragraph)]`: ExtraNewlineAndRenew; (5) both a
single Html or both a single Text: DoNothing; (6) removing begins with
`Start(List _)`: ExtraNewlineAndRenew; (7) otherwise NewlineAndRenew —
and NewlineAndRenew writes a newline then the container-line-start prefix
of the context, ExtraNewlineAndRenew twice. -/
theorem process_transition_eq_spec (context removing adding : List Event) :
    transition_strategy context removing adding =
        spec_transition_strategy context removing adding ∧
      process_transition context removing adding =
        (match spec_transition_strategy context removing adding with
         | .doNothing => some ""
         | .newlineAndRenew => (renewLineStart context).map (fun p => "\n" ++ p)
         | .extraNewlineAndRenew =>
             (renewLineStart context).map (fun p => "\n" ++ p ++ "\n" ++ p)) := by
  refine ⟨transition_strategy_eq_spec context removing adding, ?_⟩
  unfold process_transition
  rw [transition_strategy_eq_spec context removing adding]
  cases spec_transition_strategy context removing adding with
  | doNothing => rfl
  | newlineAndRenew => cases h : renewLineStart context <;> simp [h]
  | extraNewlineAndRenew => cases h : renewLineStart context <;> simp [h]

/-- Claim C9: a `Rule` event emits `---` when the innermost entry of the
running context is `Start(Item)`, and `***` in every other context. -/
theorem rule_emission (context : List Event) :
    process_enter_nesting context [Event.rule] =
      some ((if context.getLast? = some (Event.start Tag.item) then "---" else "***"),
            context ++ [Event.rule]) := by
  simp only [process_enter_nesting, enter_one]
  split <;> simp_all

/-- Claim C8: the opening fence of a fenced code block is exactly four
backticks, the info string and a newline (followed by the container
prefix of the fresh line), and the closing fence is a newline, the
container line-start prefix, and exactly four backticks. -/
theorem fenced_code_fences (context : List Event) (info p : String)
    (h : renewLineStart context = some p) :
    process_enter_nesting context
        [Event.start (Tag.codeBlock (CodeBlockKind.fenced info))] =
        some ("````" ++ info ++ "\n" ++ p,
              context ++ [Event.start (Tag.codeBlock (CodeBlockKind.fenced info))]) ∧
      process_exit_nesting context
          [Event.start (Tag.codeBlock (CodeBlockKind.fenced info))] =
        some ("\n" ++ p ++ "````") := by
  constructor
  · simp [process_enter_nesting, enter_one, h]
  · simp [process_exit_nesting, exitRev, exit_one, h]

/-- Claim C8, instantiated: fences at the outermost context. -/
theorem fenced_code_fences_witness :
    renewLineStart ([] : List Event) = some "" ∧
      process_enter_nesting []
          [Event.start (Tag.codeBlock (CodeBlockKind.fenced "rust"))] =
        some ("````" ++ "rust" ++ "\n" ++ "",
              [Event.start (Tag.codeBlock (CodeBlockKind.fenced "rust"))]) ∧
      process_exit_nesting []
          [Event.start (Tag.codeBlock (CodeBlockKind.fenced "rust"))] =
        some ("\n" ++ "" ++ "````") := by
  refine ⟨rfl, ?_⟩
  have h := fenced_code_fences [] "rust" "" rfl
  simpa using h

/-- Claim C10: for every heading level in the data model's range 1..6 the
emitter writes exactly `level` hash marks and a space without panicking,
and the slice of the seven-character literal is in bounds exactly when
the level is at most 7. -/
theorem heading_emission :
    (∀ (context : List Event) (level : Nat), 1 ≤ level → level ≤ 6 →
        process_enter_nesting context [Event.start (Tag.heading level)] =
          some ((⟨List.replicate level '#'⟩ : String) ++ " ",
                context ++ [Event.start (Tag.heading level)])) ∧
      ∀ level : Nat, (sliceTo "#######" level).isSome ↔ level ≤ 7 := by
  constructor
  · intro context level h1 h6
    have h7 : level ≤ 7 := by omega
    have hlit : "#######".toList = List.replicate 7 '#' := by decide
    have hs : sliceTo "#######" level = some ⟨List.replicate level '#'⟩ := by
      have hcond : level ≤ "#######".toList.length := by
        rw [hlit, List.length_replicate]; exact h7
      have h2 : List.take level "#######".toList = List.replicate level '#' := by
        rw [hlit, List.take_replicate, Nat.min_eq_left h7]
      unfold sliceTo
      rw [if_pos hcond, h2]
    simp [process_enter_nesting, enter_one, hs]
  · intro level
    have hlen : "#######".toList.length = 7 := by decide
    by_cases h : level ≤ 7 <;> simp [sliceTo, hlen, h]

/-- Claim C10, instantiated at level 3. -/
theorem heading_emission_witness :
    1 ≤ 3 ∧ 3 ≤ 6 ∧
      process_enter_nesting [] [Event.start (Tag.heading 3)] =
        some ("### ", [Event.start (Tag.heading 3)]) := by
  refine ⟨by decide, by decide, ?_⟩
  have h := heading_emission.1 [] 3 (by decide) (by decide)
  simpa using h

/-- Appending a lone newline makes `strEndsWithLf` true. -/
theorem strEndsWithLf_concat (t : String) : strEndsWithLf (t ++ "\n") = true := by
  have h : (t ++ "\n").toList = t.toList ++ ['\n'] := by
    show (t ++ "\n").data = t.data ++ ['\n']
    rw [String.data_append]
  simp [strEndsWithLf, h]

/-- Dropping the final character after appending a lone newline recovers
the original string. -/
theorem strDropLastChar_concat (t : String) : strDropLastChar (t ++ "\n") = t := by
  have h : (t ++ "\n").toList = t.toList ++ ['\n'] := by
    show (t ++ "\n").data = t.data ++ ['\n']
    rw [String.data_append]
  unfold strDropLastChar
  rw [h, List.dropLast_concat]
  cases t
  rfl

/-- Claim C6: when leaving phase 2 for next phase 4 with the innermost
open stack entry a fenced code block start and the last buffered event a
`Text` ending in a newline, exactly that one trailing newline is removed
from the buffered copy, and no rewrite happens when the next phase is 0. -/
theorem fenced_newline_fix_spec (stack incoming rest : List Event)
    (info t : String)
    (hstk : stack.getLast? =
      some (Event.start (Tag.codeBlock (CodeBlockKind.fenced info))))
    (hinc : incoming = rest ++ [Event.text (t ++ "\n")]) :
    fenced_newline_fix 4 stack incoming = rest ++ [Event.text t] ∧
      ∀ (stack2 incoming2 : List Event),
        fenced_newline_fix 0 stack2 incoming2 = incoming2 := by
  constructor
  · subst hinc
    simp [fenced_newline_fix, hstk, List.getLast?_concat, strEndsWithLf_concat,
      strDropLastChar_concat, List.dropLast_concat]
  · intro stack2 incoming2
    cases h : stack2.getLast? <;> simp [fenced_newline_fix, h]

/-- Claim C6, instantiated: the buffered text `a\n` of a fenced `rust`
block loses exactly its trailing newline. -/
theorem fenced_newline_fix_witness :
    ([Event.start (Tag.codeBlock (CodeBlockKind.fenced "rust"))] : List Event).getLast? =
        some (Event.start (Tag.codeBlock (CodeBlockKind.fenced "rust"))) ∧
      ([Event.text "a\n"] : List Event) = [] ++ [Event.text ("a" ++ "\n")] ∧
      fenced_newline_fix 4 [Event.start (Tag.codeBlock (CodeBlockKind.fenced "rust"))]
          [Event.text "a\n"] = [Event.text "a"] := by
  refine ⟨rfl, by decide, ?_⟩
  have h := (fenced_newline_fix_spec
    [Event.start (Tag.codeBlock (CodeBlockKind.fenced "rust"))]
    [Event.text "a\n"] [] "rust" "a" rfl (by decide)).1
  simpa using h

/-- The accumulation loop never grows the unread input, and stops with a
nonzero class only at a peeked (hence present) event. -/
theorem accumGo_spec (stack : List Event) (output : String) :
    ∀ (input incoming : List Event) (counter state : Nat)
      (st' : LoopState) (c : Nat),
      accumGo stack incoming counter state output input = some (st', c) →
      st'.input.length ≤ input.length ∧ (c ≠ 0 → st'.input ≠ []) := by
  intro input
  induction input with
  | nil =>
      intro incoming counter state st' c h
      simp only [accumGo, Option.some.injEq, Prod.mk.injEq] at h
      obtain ⟨h1, h2⟩ := h
      subst h1
      exact ⟨Nat.le_refl _, fun hc => absurd h2.symm hc⟩
  | cons e rest ih =>
      intro incoming counter state st' c h
      rw [accumGo] at h
      rcases hcl : classify2 stack incoming counter state e with _ | c0 <;>
        rw [hcl] at h
      · simp at h
      · simp only at h
        have hlen : (e :: rest).length = rest.length + 1 := rfl
        split at h
        · split at h
          · obtain ⟨hl, hc⟩ := ih _ _ _ _ _ h
            exact ⟨by omega, hc⟩
          · split at h
            · simp at h
            · obtain ⟨hl, hc⟩ := ih _ _ _ _ _ h
              exact ⟨by omega, hc⟩
        · split at h
          · obtain ⟨hl, hc⟩ := ih _ _ _ _ _ h
            exact ⟨by omega, hc⟩
          · simp only [Option.some.injEq, Prod.mk.injEq] at h
            obtain ⟨h1, h2⟩ := h
            subst h1
            exact ⟨Nat.le_refl _, fun _ => by simp⟩

/-- Every continuation produced by the seed half has a zeroed outgoing
counter or persisted phase 4, and consumes one event when any remain. -/
theorem seed_next_spec (st : LoopState) (stack : List Event) (output : String)
    (ns : Nat) (st' : LoopState) (h : seed st stack output ns = .next st') :
    (st'.outgoing_counter = 0 ∨ st'.state = 4) ∧
      (st.input ≠ [] → st'.input.length < st.input.length) := by
  rcases hin : st.input with _ | ⟨e, rest⟩ <;>
    by_cases h12 : ns = 1 ∨ ns = 2 <;>
    by_cases h3 : ns = 3 <;>
    by_cases h4 : ns = 4 <;>
    simp [seed, hin, h12, h3, h4, StepResult.next.injEq] at h
  all_goals try (subst h; simp [hin])
  all_goals
    split at h
    case _ => simp at h
    case _ =>
      split at h
      case _ =>
        simp only [StepResult.next.injEq] at h
        subst h
        simp
      case _ => simp at h

/-- Every full iteration that continues consumes at least one input event,
and leaves a zeroed outgoing counter or persisted phase 4. -/
theorem loopStep_next_spec (st st' : LoopState) (h : loopStep st = .next st') :
    st'.input.length < st.input.length ∧
      (st'.outgoing_counter = 0 ∨ st'.state = 4) := by
  unfold loopStep at h
  rcases ha : accumLoop st with _ | ⟨stm, ns⟩ <;> rw [ha] at h
  · simp at h
  · simp only [] at h
    cases hc : commit stm ns with
    | finish o => rw [hc] at h; simp at h
    | panic => rw [hc] at h; simp at h
    | go stk out =>
      rw [hc] at h
      simp only [] at h
      obtain ⟨hor, hdec⟩ := seed_next_spec stm stk out ns st' h
      obtain ⟨hle, hne⟩ :=
        accumGo_spec st.stack st.output st.input st.incoming
          st.outgoing_counter st.state stm ns (by simpa [accumLoop] using ha)
      by_cases hns : ns = 0
      · subst hns
        simp [seed] at h
      · exact ⟨lt_of_lt_of_le (hdec (hne hns)) hle, hor⟩

/-- Fuel exceeding the number of unread events never runs out. -/
theorem runLoop_no_outOfFuel :
    ∀ (fuel : Nat) (st : LoopState),
      st.input.length < fuel → runLoop fuel st ≠ .outOfFuel := by
  intro fuel
  induction fuel with
  | zero => intro st h; omega
  | succ n ih =>
      intro st h
      rw [runLoop]
      rcases hs : loopStep st with st' | o | _
      · have hdec := (loopStep_next_spec st st' hs).1
        simp only
        exact ih st' (by omega)
      · simp
      · simp

/-- Claim C2 (amended): every finite event stream makes the serialization
run terminate — it either returns output or panics; panic-freedom does
not hold for malformed streams. -/
theorem run_terminates (events : List Event) :
    (∃ s, run events = .done s) ∨ run events = .panicked := by
  have h := runLoop_no_outOfFuel (events.length + 1) (initState events)
    (by simp [initState])
  cases hr : run events with
  | done s => exact Or.inl ⟨s, rfl⟩
  | panicked => exact Or.inr rfl
  | outOfFuel => exact absurd (by simpa [run] using hr) h

/-- Claim C2, counterexample: an `End` with no matching open `Start`
crashes the run (the `unreachable!` in the phase-0 commit), refuting
"terminates without crashing" for malformed streams. -/
theorem run_end_paragraph_panics :
    run [Event.end' Tag.paragraph] = RunResult.panicked := by decide

/-- Claim C3 (amended): `push_markdown` has no failure mode besides the
malformed-stream panics of the run itself — the `String` buffer append
cannot fail, so the `io::Result` is always `Ok` and the final `unwrap`
never fires; on every stream where the run returns, push returns
normally with the serialized buffer. -/
theorem push_markdown_no_failure (events : List Event) :
    (∃ s, push_markdown events = .done s) ∨ push_markdown events = .panicked := by
  have h := runLoop_no_outOfFuel (events.length + 1) (initState events)
    (by simp [initState])
  cases hr : push_markdown events with
  | done s => exact Or.inl ⟨s, rfl⟩
  | panicked => exact Or.inr rfl
  | outOfFuel => exact absurd (by simpa [push_markdown, run] using hr) h

/-- Claim C3, counterexample: a bare inline event at the top level makes
`push_markdown` panic, refuting "push returns normally for every event
iterator". -/
theorem push_markdown_text_panics :
    push_markdown [Event.text "x"] = RunResult.panicked := by decide

/-- Claim C4: at every iteration boundary of the sequencer loop, the
outgoing counter is 0 whenever the persisted phase is 1 or 2 — the
phase-4-to-phase-1 short-circuit leaves the counter nonzero only within
an iteration, and the seed half re-establishes the invariant. -/
theorem outgoing_counter_invariant (st st' : LoopState)
    (h : loopStep st = .next st') (h12 : st'.state = 1 ∨ st'.state = 2) :
    st'.outgoing_counter = 0 := by
  rcases (loopStep_next_spec st st' h).2 with h0 | h4
  · exact h0
  · rcases h12 with h1 | h2 <;> omega

/-- Claim C4, instantiated: after the first iteration on a paragraph
stream the persisted phase is 1 and the counter is 0. -/
theorem outgoing_counter_invariant_witness :
    loopStep (initState [Event.start Tag.paragraph]) =
        .next ⟨[], [Event.start Tag.paragraph], 0, 1, [], ""⟩ ∧
      (⟨[], [Event.start Tag.paragraph], 0, 1, [], ""⟩ : LoopState).outgoing_counter = 0 := by
  refine ⟨by decide, ?_⟩
  exact outgoing_counter_invariant (initState [Event.start Tag.paragraph])
    ⟨[], [Event.start Tag.paragraph], 0, 1, [], ""⟩ (by decide) (Or.inl rfl)

end Roundtrip
